import Mathlib

/-!
Shallow embedding of the contact-book program (`Exercise_1.py`): validated
fields (`Name`, `Phone`, `Birthday`), contact records, the address book, and
the `get_birthdays_per_week` report.  Python exceptions are modelled with
`Option` (`none` = a `ValueError` escaping the operation); machine state that
an exception leaves behind is passed explicitly where it matters.
-/

set_option autoImplicit false

namespace ContactBook

/-! ### Characters and digits

Python's `str.isdigit` on the decimal digits; characters are compared
literally, so digit-hood is membership in `'0'..'9'`. -/

def isDig (c : Char) : Bool :=
  c = '0' || c = '1' || c = '2' || c = '3' || c = '4' ||
  c = '5' || c = '6' || c = '7' || c = '8' || c = '9'

def digitVal (c : Char) : Nat :=
  if c = '0' then 0 else if c = '1' then 1 else if c = '2' then 2
  else if c = '3' then 3 else if c = '4' then 4 else if c = '5' then 5
  else if c = '6' then 6 else if c = '7' then 7 else if c = '8' then 8
  else 9

/-- Python `s.isdigit()`: non-empty and every character a decimal digit. -/
def pyIsdigit (s : String) : Bool :=
  s.length > 0 && s.data.all isDig

/-! ### Calendar dates (the fragment of `datetime.date` the program uses) -/

def isLeap (y : Nat) : Bool :=
  y % 4 = 0 && (y % 100 ≠ 0 || y % 400 = 0)

def daysInMonth (y m : Nat) : Nat :=
  if m = 2 then (if isLeap y then 29 else 28)
  else if m = 4 || m = 6 || m = 9 || m = 11 then 30
  else 31

structure Date where
  year : Nat
  month : Nat
  day : Nat
  deriving Repr, DecidableEq

/-- The validity check of the `datetime.date` constructor:
`MINYEAR = 1 ≤ year ≤ 9999 = MAXYEAR`, month in range, day in range. -/
def Date.valid (d : Date) : Bool :=
  1 ≤ d.year && d.year ≤ 9999 && 1 ≤ d.month && d.month ≤ 12 &&
  1 ≤ d.day && d.day ≤ daysInMonth d.year d.month

/-- Days in the months strictly before month `m` of year `y`. -/
def daysBeforeMonth (y m : Nat) : Nat :=
  (List.range (m - 1)).foldl (fun acc i => acc + daysInMonth y (i + 1)) 0

/-- `date.toordinal()`: day 1 is 01.01.0001 of the proleptic Gregorian
calendar. -/
def toOrdinal (d : Date) : Nat :=
  let py := d.year - 1
  365 * py + py / 4 - py / 100 + py / 400 + daysBeforeMonth d.year d.month + d.day

/-- `date.weekday()`: Monday = 0 … Sunday = 6. -/
def weekday (d : Date) : Nat :=
  (toOrdinal d + 6) % 7

/-- Python's tuple comparison `date < date`: lexicographic on (y, m, d). -/
def dateLt (a b : Date) : Bool :=
  a.year < b.year ||
  (a.year = b.year && (a.month < b.month ||
    (a.month = b.month && a.day < b.day)))

/-- `date.replace(year=y)`: rebuild the date with a new year, re-running the
constructor's validity check (raises, i.e. `none`, e.g. for Feb 29 in a
non-leap year). -/
def replaceYear (d : Date) (y : Nat) : Option Date :=
  let e : Date := ⟨y, d.month, d.day⟩
  if e.valid then some e else none

/-- `strftime("%A")` for a weekday number produced by `weekday`. -/
def dayName (w : Nat) : String :=
  if w = 0 then "Monday" else if w = 1 then "Tuesday"
  else if w = 2 then "Wednesday" else if w = 3 then "Thursday"
  else if w = 4 then "Friday" else if w = 5 then "Saturday"
  else "Sunday"

/-! ### `datetime.strptime(s, "%d.%m.%Y")`

CPython compiles the format to the regex
`(?P<d>3[01]|[12]\d|0[1-9]|[1-9]| [1-9])\.(?P<m>1[0-2]|0[1-9]|[1-9])\.(?P<Y>\d\d\d\d)`
and requires it to consume the whole input, then runs the `datetime`
constructor on the extracted numbers.  None of the field patterns can match
a `'.'`, so full-regex matching is equivalent to splitting the input at the
dots and matching each field pattern against its whole part. -/

/-- Split a character list at every `'.'` (like `str.split('.')`:
`n` dots give `n+1` parts). -/
def splitDots : List Char → List (List Char)
  | [] => [[]]
  | c :: rest =>
    if c = '.' then [] :: splitDots rest
    else
      match splitDots rest with
      | [] => [[c]]
      | p :: ps => (c :: p) :: ps

/-- The `%d` field: `3[01]|[12]\d|0[1-9]|[1-9]| [1-9]`. -/
def matchDay : List Char → Option Nat
  | [c] => if isDig c && c ≠ '0' then some (digitVal c) else none
  | [a, b] =>
    if a = ' ' then
      (if isDig b && b ≠ '0' then some (digitVal b) else none)
    else if a = '3' then
      (if b = '0' || b = '1' then some (30 + digitVal b) else none)
    else if a = '1' || a = '2' then
      (if isDig b then some (10 * digitVal a + digitVal b) else none)
    else if a = '0' then
      (if isDig b && b ≠ '0' then some (digitVal b) else none)
    else none
  | _ => none

/-- The `%m` field: `1[0-2]|0[1-9]|[1-9]`. -/
def matchMonth : List Char → Option Nat
  | [c] => if isDig c && c ≠ '0' then some (digitVal c) else none
  | [a, b] =>
    if a = '1' then
      (if b = '0' || b = '1' || b = '2' then some (10 + digitVal b) else none)
    else if a = '0' then
      (if isDig b && b ≠ '0' then some (digitVal b) else none)
    else none
  | _ => none

/-- The `%Y` field: exactly four digits. -/
def matchYear : List Char → Option Nat
  | [a, b, c, d] =>
    if isDig a && isDig b && isDig c && isDig d then
      some (1000 * digitVal a + 100 * digitVal b + 10 * digitVal c + digitVal d)
    else none
  | _ => none

/-- `datetime.strptime(s, "%d.%m.%Y")`, reduced to the date it denotes;
`none` is the `ValueError` of a failed parse or of the `datetime`
constructor. -/
def strptimeDMY (s : String) : Option Date :=
  match splitDots s.data with
  | [ds, ms, ys] =>
    match matchDay ds, matchMonth ms, matchYear ys with
    | some d, some m, some y =>
      let e : Date := ⟨y, m, d⟩
      if e.valid then some e else none
    | _, _, _ => none
  | _ => none

/-! ### Field validation (`Name`, `Phone`, `Birthday` constructors) -/

/-- Python whitespace, as `str.strip()` removes it. -/
def pyWs (c : Char) : Bool :=
  c = ' ' || c = '\t' || c = '\n' || c = '\r' || c = '\x0b' || c = '\x0c'

/-- `str.strip()`: drop leading and trailing whitespace. -/
def pyStrip (s : String) : String :=
  ⟨(((s.data.dropWhile pyWs).reverse).dropWhile pyWs).reverse⟩

/-- `Name.__init__`: raises when `value.strip()` is falsy (empty), else
stores the raw string. -/
def mkName (s : String) : Option String :=
  if pyStrip s = "" then none else some s

/-- `Phone.__init__`: raises unless `value.isdigit()` and `len(value) == 10`;
stores the raw string. -/
def makePhoneNumber (s : String) : Option String :=
  if !pyIsdigit s || s.length ≠ 10 then none else some s

/-- `Birthday.__init__`: raises unless `strptime(value, "%d.%m.%Y")`
succeeds; stores the raw string. -/
def makeBirthday (s : String) : Option String :=
  match strptimeDMY s with
  | some _ => some s
  | none => none

/-- Modelled from the spec's words (the fixed pattern of claim C4, for
comparison with `makeBirthday`): the string is literally `DD.MM.YYYY` —
two digits, a dot, two digits, a dot, four digits — and denotes a real
calendar date. -/
def specMatchesDDMMYYYY (s : String) : Bool :=
  match s.data with
  | [d1, d2, dot1, m1, m2, dot2, y1, y2, y3, y4] =>
    dot1 = '.' && dot2 = '.' &&
    isDig d1 && isDig d2 && isDig m1 && isDig m2 &&
    isDig y1 && isDig y2 && isDig y3 && isDig y4 &&
    Date.valid
      ⟨1000 * digitVal y1 + 100 * digitVal y2 + 10 * digitVal y3 + digitVal y4,
       10 * digitVal m1 + digitVal m2,
       10 * digitVal d1 + digitVal d2⟩
  | _ => false

end ContactBook

namespace ContactBook

/-! ### Records (`class Record`)

`Record` holds a validated name, the list of stored phone values (each the
raw string a `Phone` object wraps), and the optional stored birthday
string. -/

structure Record where
  name : String
  phones : List String
  birthday : Option String
  deriving Repr, DecidableEq

/-- `Record.__init__`: `Name(name)` may raise; on success the record starts
with no phones and no birthday. -/
def mkRecord (name : String) : Option Record :=
  match mkName name with
  | none => none
  | some n => some ⟨n, [], none⟩

/-- `Record.add_phone`: `Phone(phone)` is constructed (and may raise) before
the append, so a failure returns the record unchanged.  The `Bool` is the
success flag (`false` = `ValueError` raised). -/
def add_phone (r : Record) (phone : String) : Record × Bool :=
  match makePhoneNumber phone with
  | none => (r, false)
  | some v => ({ r with phones := r.phones ++ [v] }, true)

/-- `Record.add_birthday`: `Birthday(birthday)` is constructed (and may
raise) before the assignment. -/
def add_birthday (r : Record) (birthday : String) : Record × Bool :=
  match makeBirthday birthday with
  | none => (r, false)
  | some v => ({ r with birthday := some v }, true)

/-- The loop body of `Record.edit_phone`: walk the phone list; at every
element equal to `old_phone`, check `len(new_phone) == 10` and overwrite it
(there is no `break`, so the walk continues past a match).  A raised
`ValueError` (`false`) aborts the walk, leaving the rest of the list as it
was. -/
def editPhoneLoop (oldPhone newPhone : String) : List String → List String × Bool
  | [] => ([], true)
  | p :: ps =>
    if p = oldPhone then
      if newPhone.length ≠ 10 then (p :: ps, false)
      else
        match editPhoneLoop oldPhone newPhone ps with
        | (ps', ok) => (newPhone :: ps', ok)
    else
      match editPhoneLoop oldPhone newPhone ps with
      | (ps', ok) => (p :: ps', ok)

/-- `Record.edit_phone old new`: the record after the loop, plus the success
flag. -/
def edit_phone (r : Record) (oldPhone newPhone : String) : Record × Bool :=
  match editPhoneLoop oldPhone newPhone r.phones with
  | (ps, ok) => ({ r with phones := ps }, ok)

/-- `Record.__str__`. -/
def render (r : Record) : String :=
  let phonesStr := String.intercalate "; " r.phones
  let birthdayStr := match r.birthday with
    | some b => b
    | none => "No birthday"
  "Contact name: " ++ r.name ++ ", phones: " ++ phonesStr ++
    ", birthday: " ++ birthdayStr

/-! ### AddressBook (`class AddressBook(UserDict)`)

The underlying `dict` is modelled as an insertion-ordered association list
with unique keys: updating an existing key keeps its position, inserting a
new key appends at the end, exactly the CPython `dict` semantics the class
inherits. -/

def Book := List (String × Record)

/-- `self.data[k] = v` on a `dict`. -/
def dictSet : List (String × Record) → String → Record → List (String × Record)
  | [], k, v => [(k, v)]
  | (k', v') :: rest, k, v =>
    if k' = k then (k, v) :: rest else (k', v') :: dictSet rest k v

/-- `self.data.get(name)` (`AddressBook.find`). -/
def findRec : List (String × Record) → String → Option Record
  | [], _ => none
  | (k, v) :: rest, n => if k = n then some v else findRec rest n

/-- `AddressBook.delete`: `del self.data[name]` guarded by
`if name in self.data`. -/
def bookDelete : List (String × Record) → String → List (String × Record)
  | [], _ => []
  | (k, v) :: rest, n => if k = n then rest else (k, v) :: bookDelete rest n

/-- `AddressBook.add_record`: keyed by `record.name.value`. -/
def add_record (book : Book) (r : Record) : Book :=
  dictSet book r.name r

/-- The `add_contact` handler (lines 110–118): build the record, add the
phone, and only then insert into the book; any `ValueError` on the way
returns with the book untouched. -/
def add_contact (book : Book) (name phone : String) : Book × Bool :=
  match mkRecord name with
  | none => (book, false)
  | some r =>
    match add_phone r phone with
    | (_, false) => (book, false)
    | (r', true) => (add_record book r', true)

end ContactBook

namespace ContactBook

/-! ### The birthdays-per-week report (`AddressBook.get_birthdays_per_week`)

The Python loop keeps a `defaultdict(list)`; we thread it through an
explicit accumulator.  `datetime.today()` is the only external input, so the
report takes `today` as a parameter.  Any `ValueError` (a `replace` on
Feb 29 into a non-leap year, a `replace` past year 9999, or an unparsable
stored birthday string) escapes the whole call: the result is `none`. -/

/-- Steps 1–2 of the loop body: `birthday.replace(year=today.year)`, then,
when that date is strictly before `today`, `replace(year=today.year + 1)`. -/
def anchorDate (today bd : Date) : Option Date :=
  match replaceYear bd today.year with
  | none => none
  | some a0 => if dateLt a0 today then replaceYear a0 (today.year + 1) else some a0

/-- `delta_days = (birthday_this_year - today).days` for the anchored
date. -/
def anchorDelta (today bd : Date) : Option Int :=
  (anchorDate today bd).map fun a => (toOrdinal a : Int) - (toOrdinal today : Int)

/-- Lines 86–87: `if day_of_week in ["Saturday", "Sunday"]:
day_of_week = "Monday"`. -/
def weekendShift (dw : String) : String :=
  if dw = "Saturday" || dw = "Sunday" then "Monday" else dw

/-- One iteration of the report loop on a single record: `none` is a raised
`ValueError`; `some none` means the record contributes nothing (no birthday
set, or `delta_days ≥ 7`); `some (some (day, name))` is the bucket name and
contact name appended by this iteration.  The weekday is computed, as in the
source, from `today + timedelta(days=delta_days)`, and `"Saturday"` /
`"Sunday"` are shifted to `"Monday"`. -/
def processRecord (today : Date) (r : Record) : Option (Option (String × String)) :=
  match r.birthday with
  | none => some none
  | some b =>
    match strptimeDMY b with
    | none => none
    | some bd =>
      match anchorDate today bd with
      | none => none
      | some a =>
        let delta : Int := (toOrdinal a : Int) - (toOrdinal today : Int)
        if delta < 7 then
          let o : Int := (toOrdinal today : Int) + delta
          let dw := weekendShift (dayName ((o + 6).emod 7).toNat)
          some (some (dw, r.name))
        else some none

/-- `birthdays_by_day[day].append(name)` on a `defaultdict(list)`: append to
the existing bucket, or append a fresh singleton bucket at the end. -/
def addToBucket : List (String × List String) → String → String →
    List (String × List String)
  | [], k, v => [(k, [v])]
  | (k', vs) :: rest, k, v =>
    if k' = k then (k', vs ++ [v]) :: rest
    else (k', vs) :: addToBucket rest k v

/-- The report loop over `self.data.values()`, threading the
`defaultdict`. -/
def birthdaysLoop (today : Date) :
    List Record → List (String × List String) → Option (List (String × List String))
  | [], acc => some acc
  | r :: rs, acc =>
    match processRecord today r with
    | none => none
    | some none => birthdaysLoop today rs acc
    | some (some (d, n)) => birthdaysLoop today rs (addToBucket acc d n)

/-- `AddressBook.get_birthdays_per_week`, with `today` injected. -/
def get_birthdays_per_week (today : Date) (book : Book) :
    Option (List (String × List String)) :=
  birthdaysLoop today (book.map Prod.snd) []

/-- All contact names appearing in a report, across every bucket. -/
def allNames (bs : List (String × List String)) : List String :=
  (bs.map Prod.snd).flatten

/-- The bucket stored under a weekday name (`[]` when absent). -/
def bucketOf : List (String × List String) → String → List String
  | [], _ => []
  | (k', vs) :: rest, k => if k' = k then vs else bucketOf rest k

end ContactBook

namespace ContactBook

/-! ### Claim C1 -/

/-- C1: `makePhoneNumber` succeeds, storing exactly the input, if and only
if the input is 10 characters long and all of them are decimal digits;
on every other string it fails with the `InvalidPhone` error. -/
theorem phone_roundtrip (s : String) :
    (makePhoneNumber s = some s ↔ s.length = 10 ∧ ∀ c ∈ s.data, isDig c = true) ∧
    (makePhoneNumber s = none ↔ ¬(s.length = 10 ∧ ∀ c ∈ s.data, isDig c = true)) := by
  have key : (!pyIsdigit s || decide (s.length ≠ 10)) = false ↔
      (s.length = 10 ∧ ∀ c ∈ s.data, isDig c = true) := by
    simp [pyIsdigit, List.all_eq_true, -ne_eq]
    constructor
    · rintro ⟨⟨hpos, hall⟩, h10⟩
      exact ⟨h10, hall⟩
    · rintro ⟨h10, hall⟩
      exact ⟨⟨by omega, hall⟩, h10⟩
  unfold makePhoneNumber
  constructor
  · constructor
    · intro h
      split at h
      · exact absurd h (by simp)
      · rename_i hc
        exact key.mp (Bool.eq_false_iff.mpr hc)
    · intro h
      rw [if_neg]
      rw [Bool.eq_false_iff] at key
      exact key.mpr h
  · constructor
    · intro h hgood
      split at h
      · rename_i hc
        rw [← Bool.not_eq_false, key] at hc
        exact hc hgood
      · exact absurd h (by simp)
    · intro h
      split
      · rfl
      · rename_i hc
        exact absurd (key.mp (Bool.eq_false_iff.mpr hc)) h

/-! ### Supporting lemmas on `edit_phone` -/

theorem editPhoneLoop_of_not_mem (oldP newP : String) (ps : List String)
    (h : oldP ∉ ps) : editPhoneLoop oldP newP ps = (ps, true) := by
  induction ps with
  | nil => rfl
  | cons p ps ih =>
    have hne : ¬(p = oldP) := fun he => h (he ▸ List.mem_cons_self p ps)
    have h2 : oldP ∉ ps := fun hm => h (List.mem_cons_of_mem _ hm)
    simp [editPhoneLoop, hne, ih h2]

theorem editPhoneLoop_of_len10 (oldP newP : String) (hlen : newP.length = 10)
    (ps : List String) :
    editPhoneLoop oldP newP ps =
      (ps.map fun p => if p = oldP then newP else p, true) := by
  induction ps with
  | nil => rfl
  | cons p ps ih =>
    by_cases hp : p = oldP <;> simp [editPhoneLoop, hp, hlen, ih]

theorem editPhoneLoop_of_badlen (oldP newP : String) (hlen : newP.length ≠ 10)
    (ps : List String) (hmem : oldP ∈ ps) :
    editPhoneLoop oldP newP ps = (ps, false) := by
  induction ps with
  | nil => cases hmem
  | cons p ps ih =>
    by_cases hp : p = oldP
    · simp [editPhoneLoop, hp, hlen]
    · have hm : oldP ∈ ps := by
        rcases List.mem_cons.mp hmem with h | h
        · exact absurd h.symm hp
        · exact h
      simp [editPhoneLoop, hp, ih hm]

/-! ### Claim C6 -/

/-- C6: `edit_phone` with an `old_phone` that occurs nowhere in the
contact's phone list leaves the record unchanged and raises nothing, even
when `new_phone` has an invalid length. -/
theorem edit_phone_missing_noop (r : Record) (oldP newP : String)
    (h : oldP ∉ r.phones) : edit_phone r oldP newP = (r, true) := by
  obtain ⟨nm, ps, bd⟩ := r
  unfold edit_phone
  rw [editPhoneLoop_of_not_mem oldP newP ps h]

theorem edit_phone_missing_noop_witness :
    edit_phone ⟨"A", ["1111111111"], none⟩ "0123456789" "123" =
      (⟨"A", ["1111111111"], none⟩, true) :=
  edit_phone_missing_noop ⟨"A", ["1111111111"], none⟩ "0123456789" "123" (by decide)

/-! ### Claim C5 -/

/-- C5 counterexample: with the phone `"0123456789"` stored twice, the
source's `edit_phone` (whose loop has no `break`) rewrites BOTH entries, so
"replaces the first … leaving all other phone entries unchanged" is false at
this input. -/
theorem edit_phone_not_first_only :
    edit_phone ⟨"A", ["0123456789", "0123456789"], none⟩ "0123456789" "9876543210" =
      (⟨"A", ["9876543210", "9876543210"], none⟩, true) ∧
    edit_phone ⟨"A", ["0123456789", "0123456789"], none⟩ "0123456789" "9876543210" ≠
      (⟨"A", ["9876543210", "0123456789"], none⟩, true) := by
  constructor
  · rfl
  · decide

/-- C5 amended: `edit_phone old new`, on a record whose phone list contains
`old`, validates only that `new` is exactly 10 characters long (digits are
not re-checked); on success it replaces EVERY entry equal to `old` (the loop
has no `break`), leaving the non-matching entries unchanged, and on a length
failure it raises, leaving the record unchanged. -/
theorem edit_phone_replaces_every (r : Record) (oldP newP : String)
    (hmem : oldP ∈ r.phones) :
    (newP.length = 10 →
      edit_phone r oldP newP =
        ({ r with phones := r.phones.map fun p => if p = oldP then newP else p },
          true)) ∧
    (newP.length ≠ 10 → edit_phone r oldP newP = (r, false)) := by
  constructor
  · intro hlen
    unfold edit_phone
    rw [editPhoneLoop_of_len10 oldP newP hlen r.phones]
  · intro hlen
    obtain ⟨nm, ps, bd⟩ := r
    unfold edit_phone
    rw [editPhoneLoop_of_badlen oldP newP hlen ps hmem]

theorem edit_phone_replaces_every_witness :
    edit_phone ⟨"A", ["0123456789", "1111111111", "0123456789"], none⟩
        "0123456789" "2222222222" =
      (⟨"A", ["2222222222", "1111111111", "2222222222"], none⟩, true) := by
  have h := (edit_phone_replaces_every
    ⟨"A", ["0123456789", "1111111111", "0123456789"], none⟩
    "0123456789" "2222222222" (by decide)).1 (by decide)
  exact h.trans (by decide)

/-! ### Supporting lemmas on the address book -/

theorem findRec_dictSet_self (book : List (String × Record)) (k : String)
    (v : Record) : findRec (dictSet book k v) k = some v := by
  induction book with
  | nil => simp [dictSet, findRec]
  | cons kv rest ih =>
    obtain ⟨k', v'⟩ := kv
    by_cases h : k' = k <;> simp [dictSet, findRec, h, ih]

theorem findRec_eq_none_of_not_mem (book : List (String × Record)) (n : String)
    (h : n ∉ book.map Prod.fst) : findRec book n = none := by
  induction book with
  | nil => rfl
  | cons kv rest ih =>
    obtain ⟨k, v⟩ := kv
    simp only [List.map_cons, List.mem_cons, not_or] at h
    have hk : ¬(k = n) := fun he => h.1 he.symm
    simp [findRec, hk, ih h.2]

theorem findRec_bookDelete (book : List (String × Record)) (n : String)
    (hnd : (book.map Prod.fst).Nodup) : findRec (bookDelete book n) n = none := by
  induction book with
  | nil => rfl
  | cons kv rest ih =>
    obtain ⟨k, v⟩ := kv
    simp only [List.map_cons, List.nodup_cons] at hnd
    by_cases h : k = n
    · subst h
      simpa [bookDelete] using findRec_eq_none_of_not_mem rest k hnd.1
    · simp [bookDelete, findRec, h, ih hnd.2]

/-! ### Claim C7 -/

/-- C7: `add_record` then `find` with the record's name returns that record
(hence one whose name equals it); `delete` then `find` returns absent; and
adding a second record under the same name overwrites the first, so `find`
by that name returns the newer record. -/
theorem add_find_delete_spec (book : Book) (c c1 c2 : Record) (n : String)
    (hnd : (book.map Prod.fst).Nodup) (hsame : c1.name = c2.name) :
    findRec (add_record book c) c.name = some c ∧
    findRec (bookDelete book n) n = none ∧
    findRec (add_record (add_record book c1) c2) c1.name = some c2 := by
  refine ⟨findRec_dictSet_self book c.name c, findRec_bookDelete book n hnd, ?_⟩
  rw [hsame]
  exact findRec_dictSet_self _ _ _

theorem add_find_delete_spec_witness :
    findRec (add_record [("Old", ⟨"Old", [], none⟩)] ⟨"Ann", [], none⟩) "Ann" =
      some ⟨"Ann", [], none⟩ ∧
    findRec (bookDelete [("Old", ⟨"Old", [], none⟩)] "Old") "Old" = none ∧
    findRec (add_record (add_record [("Old", ⟨"Old", [], none⟩)]
      ⟨"Bo", ["1111111111"], none⟩) ⟨"Bo", ["2222222222"], none⟩) "Bo" =
      some ⟨"Bo", ["2222222222"], none⟩ :=
  add_find_delete_spec [("Old", ⟨"Old", [], none⟩)] ⟨"Ann", [], none⟩
    ⟨"Bo", ["1111111111"], none⟩ ⟨"Bo", ["2222222222"], none⟩ "Old"
    (by decide) (by decide)

/-! ### Claim C8 -/

/-- C8: `add_phone`, `add_birthday` and record construction validate before
writing: on a validation failure the operation reports the failure and the
record — and, through `add_contact`, the whole book — is exactly as
before. -/
theorem validate_then_commit (r : Record) (p b n : String)
    (hp : makePhoneNumber p = none) (hb : makeBirthday b = none)
    (hn : mkName n = none) :
    add_phone r p = (r, false) ∧ add_birthday r b = (r, false) ∧
    mkRecord n = none ∧
    ∀ (book : Book) (m : String), add_contact book m p = (book, false) := by
  refine ⟨by simp [add_phone, hp], by simp [add_birthday, hb],
    by simp [mkRecord, hn], ?_⟩
  intro book m
  unfold add_contact
  cases hm : mkRecord m with
  | none => rfl
  | some rm => simp [add_phone, hp]

theorem validate_then_commit_witness :
    add_phone ⟨"A", [], none⟩ "123" = (⟨"A", [], none⟩, false) ∧
    add_birthday ⟨"A", [], none⟩ "31.02.2020" = (⟨"A", [], none⟩, false) ∧
    mkRecord " " = none ∧
    ∀ (book : Book) (m : String), add_contact book m "123" = (book, false) :=
  validate_then_commit ⟨"A", [], none⟩ "123" "31.02.2020" " "
    (by decide) (by decide) (by decide)

/-! ### Supporting lemmas on digits and `strptime` -/

theorem isDig_cases (c : Char) (h : isDig c = true) :
    c = '0' ∨ c = '1' ∨ c = '2' ∨ c = '3' ∨ c = '4' ∨
    c = '5' ∨ c = '6' ∨ c = '7' ∨ c = '8' ∨ c = '9' := by
  have h2 := h
  simp only [isDig, Bool.or_eq_true, decide_eq_true_eq] at h2
  tauto

theorem isDig_ne_dot (c : Char) (h : isDig c = true) : ¬(c = '.') := by
  intro he
  rw [he] at h
  exact absurd h (by decide)

theorem splitDots_pattern (d1 d2 m1 m2 y1 y2 y3 y4 : Char)
    (hd1 : isDig d1 = true) (hd2 : isDig d2 = true)
    (hm1 : isDig m1 = true) (hm2 : isDig m2 = true)
    (hy1 : isDig y1 = true) (hy2 : isDig y2 = true)
    (hy3 : isDig y3 = true) (hy4 : isDig y4 = true) :
    splitDots [d1, d2, '.', m1, m2, '.', y1, y2, y3, y4] =
      [[d1, d2], [m1, m2], [y1, y2, y3, y4]] := by
  simp [splitDots, isDig_ne_dot _ hd1, isDig_ne_dot _ hd2,
    isDig_ne_dot _ hm1, isDig_ne_dot _ hm2, isDig_ne_dot _ hy1,
    isDig_ne_dot _ hy2, isDig_ne_dot _ hy3, isDig_ne_dot _ hy4]

theorem matchDay_two_digits (a b : Char) (ha : isDig a = true)
    (hb : isDig b = true) (h1 : 1 ≤ 10 * digitVal a + digitVal b)
    (h31 : 10 * digitVal a + digitVal b ≤ 31) :
    matchDay [a, b] = some (10 * digitVal a + digitVal b) := by
  rcases isDig_cases a ha with rfl | rfl | rfl | rfl | rfl | rfl | rfl | rfl | rfl | rfl <;>
    rcases isDig_cases b hb with rfl | rfl | rfl | rfl | rfl | rfl | rfl | rfl | rfl | rfl <;>
    revert h1 h31 <;> decide

theorem matchMonth_two_digits (a b : Char) (ha : isDig a = true)
    (hb : isDig b = true) (h1 : 1 ≤ 10 * digitVal a + digitVal b)
    (h12 : 10 * digitVal a + digitVal b ≤ 12) :
    matchMonth [a, b] = some (10 * digitVal a + digitVal b) := by
  rcases isDig_cases a ha with rfl | rfl | rfl | rfl | rfl | rfl | rfl | rfl | rfl | rfl <;>
    rcases isDig_cases b hb with rfl | rfl | rfl | rfl | rfl | rfl | rfl | rfl | rfl | rfl <;>
    revert h1 h12 <;> decide

theorem matchYear_digits (a b c d : Char) (ha : isDig a = true)
    (hb : isDig b = true) (hc : isDig c = true) (hd : isDig d = true) :
    matchYear [a, b, c, d] =
      some (1000 * digitVal a + 100 * digitVal b + 10 * digitVal c + digitVal d) := by
  simp [matchYear, ha, hb, hc, hd]

theorem daysInMonth_le_31 (y m : Nat) : daysInMonth y m ≤ 31 := by
  unfold daysInMonth
  split_ifs <;> omega

/-! ### Claim C4 -/

/-- C4 counterexample: `"1.1.2020"` does not match the fixed `DD.MM.YYYY`
pattern, yet `makeBirthday` accepts it, because Python's `strptime` lets
`%d` and `%m` match a single digit; so "succeeds if and only if s matches
the fixed pattern DD.MM.YYYY" is false at this input. -/
theorem birthday_pattern_iff_refuted :
    (makeBirthday "1.1.2020").isSome = true ∧
    specMatchesDDMMYYYY "1.1.2020" = false := by
  constructor
  · decide
  · decide

/-- C4 amended: every string literally of the form `DD.MM.YYYY` denoting a
real calendar date is accepted by `makeBirthday`, and the claim's examples
behave as stated ("30.02.2021" and "31.02.2020" fail with `InvalidDate`,
"29.02.2020" and "29.02.2024" succeed, 2020 and 2024 being leap years); but
acceptance is strictly wider than the fixed pattern, since the underlying
`strptime` also accepts one-digit day and month fields, e.g. `"1.1.2020"`. -/
theorem birthday_parse_spec (s : String) (h : specMatchesDDMMYYYY s = true) :
    makeBirthday s = some s ∧
    makeBirthday "30.02.2021" = none ∧
    makeBirthday "31.02.2020" = none ∧
    (makeBirthday "29.02.2020").isSome = true ∧
    (makeBirthday "29.02.2024").isSome = true ∧
    (makeBirthday "1.1.2020").isSome = true := by
  refine ⟨?_, by decide, by decide, by decide, by decide, by decide⟩
  obtain ⟨data⟩ := s
  rcases data with _ | ⟨d1, _ | ⟨d2, _ | ⟨p1, _ | ⟨m1, _ | ⟨m2, _ | ⟨p2, _ |
    ⟨y1, _ | ⟨y2, _ | ⟨y3, _ | ⟨y4, _ | ⟨c11, rest⟩⟩⟩⟩⟩⟩⟩⟩⟩⟩⟩ <;>
    simp only [specMatchesDDMMYYYY, Bool.and_eq_true, decide_eq_true_eq,
      and_assoc] at h <;>
    try exact absurd h (by decide)
  obtain ⟨hp1, hp2, hd1, hd2, hm1, hm2, hy1, hy2, hy3, hy4, hvalid⟩ := h
  subst hp1
  subst hp2
  have hvalid2 := hvalid
  simp only [Date.valid, Bool.and_eq_true, decide_eq_true_eq, and_assoc] at hvalid2
  obtain ⟨hyA, hyB, hmA, hmB, hdA, hdB⟩ := hvalid2
  have hday := matchDay_two_digits d1 d2 hd1 hd2 hdA
    (le_trans hdB (daysInMonth_le_31 _ _))
  have hmonth := matchMonth_two_digits m1 m2 hm1 hm2 hmA hmB
  have hyear := matchYear_digits y1 y2 y3 y4 hy1 hy2 hy3 hy4
  unfold makeBirthday strptimeDMY
  rw [show (String.mk [d1, d2, '.', m1, m2, '.', y1, y2, y3, y4]).data =
      [d1, d2, '.', m1, m2, '.', y1, y2, y3, y4] from rfl]
  rw [splitDots_pattern d1 d2 m1 m2 y1 y2 y3 y4 hd1 hd2 hm1 hm2 hy1 hy2 hy3 hy4]
  simp [hday, hmonth, hyear, hvalid]

theorem birthday_parse_spec_witness :
    makeBirthday "29.02.2020" = some "29.02.2020" :=
  (birthday_parse_spec "29.02.2020" (by decide)).1

/-! ### Claim C9 -/

/-- C9: rendering a contact with an empty phone list and no birthday
produces exactly `"Contact name: X, phones: , birthday: No birthday"`. -/
theorem render_no_phones_no_birthday (n : String) :
    render ⟨n, [], none⟩ =
      "Contact name: " ++ n ++ ", phones: , birthday: No birthday" := by
  apply String.ext
  simp [render, String.intercalate]

/-! ### Supporting lemmas on the report loop -/

theorem birthdaysLoop_nil (today : Date) (acc : List (String × List String)) :
    birthdaysLoop today [] acc = some acc := rfl

theorem birthdaysLoop_cons (today : Date) (r : Record) (rs : List Record)
    (acc : List (String × List String)) :
    birthdaysLoop today (r :: rs) acc =
      match processRecord today r with
      | none => none
      | some none => birthdaysLoop today rs acc
      | some (some (d, n)) => birthdaysLoop today rs (addToBucket acc d n) := rfl

theorem allNames_nil : allNames [] = [] := rfl

theorem allNames_cons (k : String) (vs : List String)
    (t : List (String × List String)) :
    allNames ((k, vs) :: t) = vs ++ allNames t := rfl

theorem allNames_addToBucket (bs : List (String × List String)) (k v : String) :
    List.Perm (allNames (addToBucket bs k v)) (v :: allNames bs) := by
  induction bs with
  | nil => exact List.Perm.refl _
  | cons kv rest ih =>
    obtain ⟨k', vs⟩ := kv
    by_cases h : k' = k
    · simp only [addToBucket, if_pos h, allNames_cons]
      exact (List.perm_append_singleton v vs).append_right _
    · simp only [addToBucket, if_neg h, allNames_cons]
      exact (ih.append_left vs).trans List.perm_middle

theorem processRecord_name_eq (today : Date) (r : Record) (d n : String)
    (h : processRecord today r = some (some (d, n))) : n = r.name := by
  unfold processRecord at h
  split at h
  · simp at h
  · split at h
    · simp at h
    · split at h
      · simp at h
      · simp only [] at h
        split at h
        · simp only [Option.some.injEq, Prod.mk.injEq] at h
          exact h.2.symm
        · simp at h

theorem processRecord_day_not_weekend (today : Date) (r : Record) (d n : String)
    (h : processRecord today r = some (some (d, n))) :
    d ≠ "Saturday" ∧ d ≠ "Sunday" := by
  unfold processRecord at h
  split at h
  · simp at h
  · split at h
    · simp at h
    · split at h
      · simp at h
      · simp only [] at h
        split at h
        · simp only [Option.some.injEq, Prod.mk.injEq] at h
          obtain ⟨hd, _⟩ := h
          subst hd
          unfold weekendShift
          split
          · exact ⟨by decide, by decide⟩
          · rename_i hcond
            simpa using hcond
        · simp at h

theorem birthdaysLoop_mem_acc (today : Date) (rs : List Record) :
    ∀ acc bs, birthdaysLoop today rs acc = some bs →
      ∀ n, n ∈ allNames acc → n ∈ allNames bs := by
  induction rs with
  | nil =>
    intro acc bs h n hm
    rw [birthdaysLoop_nil] at h
    injection h with h2
    subst h2
    exact hm
  | cons r0 rs ih =>
    intro acc bs h n hm
    rw [birthdaysLoop_cons] at h
    cases hp : processRecord today r0 with
    | none => simp [hp] at h
    | some o =>
      cases o with
      | none =>
        simp only [hp] at h
        exact ih acc bs h n hm
      | some pr =>
        obtain ⟨d0, n0⟩ := pr
        simp only [hp] at h
        exact ih _ bs h n
          ((allNames_addToBucket acc d0 n0).mem_iff.mpr (List.mem_cons_of_mem _ hm))

theorem birthdaysLoop_mem_of_processed (today : Date) (rs : List Record) :
    ∀ acc bs, birthdaysLoop today rs acc = some bs →
      ∀ r, r ∈ rs → ∀ d n, processRecord today r = some (some (d, n)) →
        n ∈ allNames bs := by
  induction rs with
  | nil => intro acc bs h r hr; cases hr
  | cons r0 rs ih =>
    intro acc bs h r hr d n hpr
    rw [birthdaysLoop_cons] at h
    rcases List.mem_cons.mp hr with rfl | hr2
    · simp only [hpr] at h
      exact birthdaysLoop_mem_acc today rs _ bs h n
        ((allNames_addToBucket acc d n).mem_iff.mpr (List.mem_cons_self n _))
    · cases hp : processRecord today r0 with
      | none => simp [hp] at h
      | some o =>
        cases o with
        | none =>
          simp only [hp] at h
          exact ih acc bs h r hr2 d n hpr
        | some pr =>
          obtain ⟨d0, n0⟩ := pr
          simp only [hp] at h
          exact ih _ bs h r hr2 d n hpr

theorem birthdaysLoop_mem_inv (today : Date) (rs : List Record) :
    ∀ acc bs, birthdaysLoop today rs acc = some bs →
      ∀ n, n ∈ allNames bs →
        n ∈ allNames acc ∨ ∃ r ∈ rs, ∃ d, processRecord today r = some (some (d, n)) := by
  induction rs with
  | nil =>
    intro acc bs h n hm
    rw [birthdaysLoop_nil] at h
    injection h with h2
    subst h2
    exact Or.inl hm
  | cons r0 rs ih =>
    intro acc bs h n hm
    rw [birthdaysLoop_cons] at h
    cases hp : processRecord today r0 with
    | none => simp [hp] at h
    | some o =>
      cases o with
      | none =>
        simp only [hp] at h
        rcases ih acc bs h n hm with hacc | ⟨r, hr, d, hd⟩
        · exact Or.inl hacc
        · exact Or.inr ⟨r, List.mem_cons_of_mem _ hr, d, hd⟩
      | some pr =>
        obtain ⟨d0, n0⟩ := pr
        simp only [hp] at h
        rcases ih _ bs h n hm with hacc | ⟨r, hr, d, hd⟩
        · have hmem := (allNames_addToBucket acc d0 n0).mem_iff.mp hacc
          rcases List.mem_cons.mp hmem with rfl | hacc2
          · exact Or.inr ⟨r0, List.mem_cons_self _ _, d0, hp⟩
          · exact Or.inl hacc2
        · exact Or.inr ⟨r, List.mem_cons_of_mem _ hr, d, hd⟩

theorem mem_bucketOf_addToBucket_self (bs : List (String × List String))
    (k v : String) : v ∈ bucketOf (addToBucket bs k v) k := by
  induction bs with
  | nil => simp [addToBucket, bucketOf]
  | cons kv rest ih =>
    obtain ⟨k', vs⟩ := kv
    by_cases h : k' = k
    · simp [addToBucket, bucketOf, if_pos h, h]
    · simp only [addToBucket, if_neg h, bucketOf]
      exact ih

theorem mem_bucketOf_addToBucket_mono (bs : List (String × List String))
    (k k0 v m : String) (hm : m ∈ bucketOf bs k) :
    m ∈ bucketOf (addToBucket bs k0 v) k := by
  induction bs with
  | nil => simp [bucketOf] at hm
  | cons kv rest ih =>
    obtain ⟨k', vs⟩ := kv
    by_cases h0 : k' = k0
    · by_cases h : k' = k
      · simp only [bucketOf, if_pos h] at hm
        simp only [addToBucket, if_pos h0, bucketOf, if_pos h]
        exact List.mem_append_left _ hm
      · simp only [bucketOf, if_neg h] at hm
        simp only [addToBucket, if_pos h0, bucketOf, if_neg h]
        exact hm
    · by_cases h : k' = k
      · simp only [bucketOf, if_pos h] at hm
        simp only [addToBucket, if_neg h0, bucketOf, if_pos h]
        exact hm
      · simp only [bucketOf, if_neg h] at hm
        simp only [addToBucket, if_neg h0, bucketOf, if_neg h]
        exact ih hm

theorem birthdaysLoop_bucket_acc (today : Date) (rs : List Record) :
    ∀ acc bs, birthdaysLoop today rs acc = some bs →
      ∀ k m, m ∈ bucketOf acc k → m ∈ bucketOf bs k := by
  induction rs with
  | nil =>
    intro acc bs h k m hm
    rw [birthdaysLoop_nil] at h
    injection h with h2
    subst h2
    exact hm
  | cons r0 rs ih =>
    intro acc bs h k m hm
    rw [birthdaysLoop_cons] at h
    cases hp : processRecord today r0 with
    | none => simp [hp] at h
    | some o =>
      cases o with
      | none =>
        simp only [hp] at h
        exact ih acc bs h k m hm
      | some pr =>
        obtain ⟨d0, n0⟩ := pr
        simp only [hp] at h
        exact ih _ bs h k m (mem_bucketOf_addToBucket_mono acc k d0 n0 m hm)

theorem birthdaysLoop_bucket_of_processed (today : Date) (rs : List Record) :
    ∀ acc bs, birthdaysLoop today rs acc = some bs →
      ∀ r, r ∈ rs → ∀ d n, processRecord today r = some (some (d, n)) →
        n ∈ bucketOf bs d := by
  induction rs with
  | nil => intro acc bs h r hr; cases hr
  | cons r0 rs ih =>
    intro acc bs h r hr d n hpr
    rw [birthdaysLoop_cons] at h
    rcases List.mem_cons.mp hr with rfl | hr2
    · simp only [hpr] at h
      exact birthdaysLoop_bucket_acc today rs _ bs h d n
        (mem_bucketOf_addToBucket_self acc d n)
    · cases hp : processRecord today r0 with
      | none => simp [hp] at h
      | some o =>
        cases o with
        | none =>
          simp only [hp] at h
          exact ih acc bs h r hr2 d n hpr
        | some pr =>
          obtain ⟨d0, n0⟩ := pr
          simp only [hp] at h
          exact ih _ bs h r hr2 d n hpr

theorem keys_addToBucket (bs : List (String × List String)) (k0 v k : String)
    (h : k ∈ (addToBucket bs k0 v).map Prod.fst) :
    k ∈ bs.map Prod.fst ∨ k = k0 := by
  induction bs with
  | nil =>
    simp only [addToBucket, List.map_cons, List.map_nil, List.mem_cons,
      List.not_mem_nil, or_false] at h
    exact Or.inr h
  | cons kv rest ih =>
    obtain ⟨k', vs⟩ := kv
    by_cases h0 : k' = k0
    · simp only [addToBucket, if_pos h0, List.map_cons, List.mem_cons] at h ⊢
      exact Or.inl h
    · simp only [addToBucket, if_neg h0, List.map_cons, List.mem_cons] at h ⊢
      rcases h with rfl | h2
      · exact Or.inl (Or.inl rfl)
      · rcases ih h2 with hh | hh
        · exact Or.inl (Or.inr hh)
        · exact Or.inr hh

theorem birthdaysLoop_keys_inv (today : Date) (rs : List Record) :
    ∀ acc bs, birthdaysLoop today rs acc = some bs →
      ∀ k, k ∈ bs.map Prod.fst →
        k ∈ acc.map Prod.fst ∨
          ∃ r ∈ rs, ∃ n, processRecord today r = some (some (k, n)) := by
  induction rs with
  | nil =>
    intro acc bs h k hk
    rw [birthdaysLoop_nil] at h
    injection h with h2
    subst h2
    exact Or.inl hk
  | cons r0 rs ih =>
    intro acc bs h k hk
    rw [birthdaysLoop_cons] at h
    cases hp : processRecord today r0 with
    | none => simp [hp] at h
    | some o =>
      cases o with
      | none =>
        simp only [hp] at h
        rcases ih acc bs h k hk with hacc | ⟨r, hr, n, hn⟩
        · exact Or.inl hacc
        · exact Or.inr ⟨r, List.mem_cons_of_mem _ hr, n, hn⟩
      | some pr =>
        obtain ⟨d0, n0⟩ := pr
        simp only [hp] at h
        rcases ih _ bs h k hk with hacc | ⟨r, hr, n, hn⟩
        · rcases keys_addToBucket acc d0 n0 k hacc with hh | rfl
          · exact Or.inl hh
          · exact Or.inr ⟨r0, List.mem_cons_self _ _, n0, hp⟩
        · exact Or.inr ⟨r, List.mem_cons_of_mem _ hr, n, hn⟩

theorem birthdaysLoop_names_sublist (today : Date) (rs : List Record) :
    ∀ acc bs, birthdaysLoop today rs acc = some bs →
      ∃ ns, List.Perm (allNames bs) (allNames acc ++ ns) ∧
        List.Sublist ns (rs.map Record.name) := by
  induction rs with
  | nil =>
    intro acc bs h
    rw [birthdaysLoop_nil] at h
    injection h with h2
    subst h2
    exact ⟨[], by simp, List.nil_sublist _⟩
  | cons r0 rs ih =>
    intro acc bs h
    rw [birthdaysLoop_cons] at h
    cases hp : processRecord today r0 with
    | none => simp [hp] at h
    | some o =>
      cases o with
      | none =>
        simp only [hp] at h
        obtain ⟨ns, hperm, hsub⟩ := ih acc bs h
        exact ⟨ns, hperm, hsub.cons _⟩
      | some pr =>
        obtain ⟨d0, n0⟩ := pr
        simp only [hp] at h
        obtain ⟨ns, hperm, hsub⟩ := ih _ bs h
        have hn0 : n0 = r0.name := processRecord_name_eq today r0 d0 n0 hp
        refine ⟨n0 :: ns, ?_, ?_⟩
        · have h1 : List.Perm (allNames (addToBucket acc d0 n0) ++ ns)
              ((n0 :: allNames acc) ++ ns) :=
            (allNames_addToBucket acc d0 n0).append_right ns
          exact hperm.trans (h1.trans List.perm_middle.symm)
        · rw [hn0]
          exact hsub.cons₂ _

theorem weekday_bridge (t a : Nat) :
    (((t : Int) + ((a : Int) - (t : Int)) + 6).emod 7).toNat = (a + 6) % 7 := by
  have h1 : (t : Int) + ((a : Int) - (t : Int)) + 6 = ((a + 6 : Nat) : Int) := by
    push_cast
    ring
  rw [h1]
  show ((((a + 6 : Nat) : Int)) % 7).toNat = (a + 6) % 7
  omega

theorem processRecord_eq (today : Date) (r : Record) (b : String) (bd a : Date)
    (hb : r.birthday = some b) (hparse : strptimeDMY b = some bd)
    (ha : anchorDate today bd = some a) :
    processRecord today r =
      if (toOrdinal a : Int) - (toOrdinal today : Int) < 7 then
        some (some (weekendShift (dayName (weekday a)), r.name))
      else some none := by
  unfold processRecord
  simp only [hb, hparse, ha]
  rw [weekday_bridge (toOrdinal today) (toOrdinal a)]
  rfl

/-! ### Claim C2 -/

/-- C2: a contact of the book with a birthday set appears in the completed
report exactly when the `delta_days` of its birthday — anchored to today's
year, or to next year when the anchored date is strictly before today — is
strictly less than 7; a birthday exactly 7 days out is excluded. -/
theorem upcoming_iff_delta_lt_7 (today : Date) (book : Book)
    (bs : List (String × List String))
    (hnd : ((book.map Prod.snd).map Record.name).Nodup)
    (hres : get_birthdays_per_week today book = some bs)
    (r : Record) (hr : r ∈ book.map Prod.snd)
    (b : String) (hb : r.birthday = some b)
    (bd : Date) (hparse : strptimeDMY b = some bd)
    (delta : Int) (hdelta : anchorDelta today bd = some delta) :
    r.name ∈ allNames bs ↔ delta < 7 := by
  obtain ⟨a, ha, hda⟩ : ∃ a, anchorDate today bd = some a ∧
      delta = (toOrdinal a : Int) - (toOrdinal today : Int) := by
    unfold anchorDelta at hdelta
    cases hc : anchorDate today bd with
    | none => rw [hc] at hdelta; simp at hdelta
    | some a =>
      rw [hc] at hdelta
      injection hdelta with h2
      exact ⟨a, rfl, h2.symm⟩
  subst hda
  have hpr := processRecord_eq today r b bd a hb hparse ha
  unfold get_birthdays_per_week at hres
  constructor
  · intro hmem
    rcases birthdaysLoop_mem_inv today (book.map Prod.snd) [] bs hres r.name hmem
      with hacc | ⟨r', hr', d, hd⟩
    · simp [allNames_nil] at hacc
    · have hname : r.name = r'.name := processRecord_name_eq today r' d r.name hd
      have heq : r' = r := List.inj_on_of_nodup_map hnd hr' hr hname.symm
      subst heq
      by_cases hlt : (toOrdinal a : Int) - (toOrdinal today : Int) < 7
      · exact hlt
      · rw [if_neg hlt] at hpr
        rw [hpr] at hd
        simp at hd
  · intro hlt
    rw [if_pos hlt] at hpr
    exact birthdaysLoop_mem_of_processed today (book.map Prod.snd) [] bs hres
      r hr _ r.name hpr

theorem upcoming_iff_delta_lt_7_witness :
    ("Cy" : String) ∈ allNames [] ↔ (7 : Int) < 7 :=
  upcoming_iff_delta_lt_7 ⟨2024, 6, 10⟩ [("Cy", ⟨"Cy", [], some "17.06.2024"⟩)]
    [] (by decide) (by decide) ⟨"Cy", [], some "17.06.2024"⟩ (by decide)
    "17.06.2024" rfl ⟨2024, 6, 17⟩ (by decide) 7 (by decide)

/-! ### Claim C3 -/

/-- C3: a contact whose anchored birthday (inside the 7-day window) falls on
a Saturday or a Sunday is reported under the "Monday" bucket, and no bucket
of any completed report is named "Saturday" or "Sunday". -/
theorem weekend_reported_monday (today : Date) (book : Book)
    (bs : List (String × List String))
    (hres : get_birthdays_per_week today book = some bs)
    (r : Record) (hr : r ∈ book.map Prod.snd)
    (b : String) (hb : r.birthday = some b)
    (bd : Date) (hparse : strptimeDMY b = some bd)
    (a : Date) (ha : anchorDate today bd = some a)
    (hdelta : (toOrdinal a : Int) - (toOrdinal today : Int) < 7)
    (hw : weekday a = 5 ∨ weekday a = 6) :
    r.name ∈ bucketOf bs "Monday" ∧
    ∀ k ∈ bs.map Prod.fst, k ≠ "Saturday" ∧ k ≠ "Sunday" := by
  have hpr := processRecord_eq today r b bd a hb hparse ha
  rw [if_pos hdelta] at hpr
  have hshift : weekendShift (dayName (weekday a)) = "Monday" := by
    rcases hw with hw | hw <;> rw [hw] <;> rfl
  rw [hshift] at hpr
  unfold get_birthdays_per_week at hres
  constructor
  · exact birthdaysLoop_bucket_of_processed today (book.map Prod.snd) [] bs hres
      r hr "Monday" r.name hpr
  · intro k hk
    rcases birthdaysLoop_keys_inv today (book.map Prod.snd) [] bs hres k hk
      with hacc | ⟨r', hr', n, hn⟩
    · simp at hacc
    · exact processRecord_day_not_weekend today r' k n hn

theorem weekend_reported_monday_witness :
    ("Bo" : String) ∈ bucketOf [("Monday", ["Bo"])] "Monday" ∧
    ∀ k ∈ [("Monday", ["Bo"])].map Prod.fst, k ≠ "Saturday" ∧ k ≠ "Sunday" :=
  weekend_reported_monday ⟨2024, 6, 10⟩ [("Bo", ⟨"Bo", [], some "16.06.2024"⟩)]
    [("Monday", ["Bo"])] (by decide) ⟨"Bo", [], some "16.06.2024"⟩ (by decide)
    "16.06.2024" rfl ⟨2024, 6, 16⟩ (by decide) ⟨2024, 6, 16⟩ (by decide)
    (by decide) (Or.inr (by decide))

/-! ### Claim C10 -/

/-- C10: in any completed report over a book whose contacts bear pairwise
distinct names, every contact name appears at most once across all buckets
combined: the concatenation of all buckets has no duplicate. -/
theorem report_names_nodup (today : Date) (book : Book)
    (bs : List (String × List String))
    (hnd : ((book.map Prod.snd).map Record.name).Nodup)
    (hres : get_birthdays_per_week today book = some bs) :
    (allNames bs).Nodup := by
  unfold get_birthdays_per_week at hres
  obtain ⟨ns, hperm, hsub⟩ :=
    birthdaysLoop_names_sublist today (book.map Prod.snd) [] bs hres
  have hns : ns.Nodup := hnd.sublist hsub
  have hperm2 : List.Perm (allNames bs) ns := by
    simpa [allNames_nil] using hperm
  exact hperm2.nodup_iff.mpr hns

theorem report_names_nodup_witness :
    (allNames [("Wednesday", ["Ann"]), ("Monday", ["Bo"])]).Nodup :=
  report_names_nodup ⟨2024, 6, 10⟩
    [("Ann", ⟨"Ann", [], some "12.06.2024"⟩), ("Bo", ⟨"Bo", [], some "16.06.2024"⟩)]
    [("Wednesday", ["Ann"]), ("Monday", ["Bo"])] (by decide) (by decide)

end ContactBook
